import Mathlib

/-!
Verification development for the weird-c compiler: a four-stage pipeline
(scanner, recursive-descent parser, closure conversion, C code generation)
for a minimal call-by-value functional language.

The definitions below are shallow embeddings of the TypeScript sources
(`src/main.ts` and its duplicated sibling, plus the `lib/` helpers and the C
runtime `driver.c`).  Index-based character/token cursors are rendered as
explicit positions or remaining-input lists; the mutable `Map`-backed
`Context` and the mutable fresh-name `State` are rendered with their single
heap cell threaded explicitly (all uses in the source are single-threaded, so
state passing is a faithful model of the in-place mutation).
-/

namespace WeirdC

/-! ## Tokens (`type Token` in main.ts) -/

inductive Token where
  | NUMBER (value : Nat)
  | SYMBOL (value : String)
  | SEMICOLON
  | LPAREN
  | RPAREN
  | COMMA
  | EQUAL
  | ARROW
  | FUN
  | LET
  | EOF
deriving Repr, DecidableEq

/-- Tag string of a token, mirroring the `tag` discriminant of the TS ADT. -/
def tagOf : Token → String
  | .NUMBER _ => "NUMBER"
  | .SYMBOL _ => "SYMBOL"
  | .SEMICOLON => "SEMICOLON"
  | .LPAREN => "LPAREN"
  | .RPAREN => "RPAREN"
  | .COMMA => "COMMA"
  | .EQUAL => "EQUAL"
  | .ARROW => "ARROW"
  | .FUN => "FUN"
  | .LET => "LET"
  | .EOF => "EOF"

/-! ## Scanner (`scanner` in main.ts) -/

/-- Model: `isDigit` from the scanner: `char >= "0" && char <= "9"`. -/
def isDigit (c : Char) : Bool := '0' ≤ c && c ≤ '9'

/-- Model: `isAlpha` from the scanner. -/
def isAlpha (c : Char) : Bool :=
  ('a' ≤ c && c ≤ 'z') || ('A' ≤ c && c ≤ 'Z') || c = '_'

/-- Model: `isAlphaNumeric` from the scanner. -/
def isAlphaNumeric (c : Char) : Bool := isAlpha c || isDigit c

/-- Decimal value of a digit run. -/
def digitsVal (ds : List Char) : Nat :=
  ds.foldl (fun a c => a * 10 + (c.toNat - 48)) 0

/-- Model of JavaScript `parseInt` specialised to the scanner's call site: the
argument always starts with a digit, and `parseInt` reads the longest leading
digit run (stopping at a `.`) and returns its decimal value. -/
def jsParseInt (cs : List Char) : Nat := digitsVal (cs.takeWhile isDigit)

/-- The scanner loop of `scanTokens`, on the remaining character list.  Each
step handles one `switch (char)` dispatch of the source: whitespace skipped,
single-char tokens, `=`/`=>` lookahead, digit runs (`number()`: digits, then
an optional `.` followed by at least one digit, value via `parseInt`),
identifier runs (`identifier()`: keywords `fun`/`let`, otherwise `SYMBOL`),
anything else a fatal `LexError`.  The fuel argument only bounds the
recursion; every step consumes at least one character, so
`length + 1` fuel never runs out. -/
def scanGo : Nat → List Char → Except String (List Token)
  | 0, _ => .error "scanner out of fuel"
  | _ + 1, [] => .ok [Token.EOF]
  | fuel + 1, c :: cs =>
    if c = ' ' ∨ c = '\r' ∨ c = '\n' ∨ c = '\t' then
      scanGo fuel cs
    else if c = '(' then (scanGo fuel cs).map (fun ts => Token.LPAREN :: ts)
    else if c = ')' then (scanGo fuel cs).map (fun ts => Token.RPAREN :: ts)
    else if c = '=' then
      match cs with
      | '>' :: cs2 => (scanGo fuel cs2).map (fun ts => Token.ARROW :: ts)
      | _ => (scanGo fuel cs).map (fun ts => Token.EQUAL :: ts)
    else if c = ';' then (scanGo fuel cs).map (fun ts => Token.SEMICOLON :: ts)
    else if c = ',' then (scanGo fuel cs).map (fun ts => Token.COMMA :: ts)
    else if isDigit c then
      let ds1 := cs.takeWhile isDigit
      let rest1 := cs.dropWhile isDigit
      match rest1 with
      | '.' :: r2 =>
        if isDigit (r2.headD '\x00') then
          let ds2 := r2.takeWhile isDigit
          let rest2 := r2.dropWhile isDigit
          (scanGo fuel rest2).map
            (fun ts => Token.NUMBER (jsParseInt (c :: ds1 ++ '.' :: ds2)) :: ts)
        else
          (scanGo fuel rest1).map (fun ts => Token.NUMBER (jsParseInt (c :: ds1)) :: ts)
      | _ => (scanGo fuel rest1).map (fun ts => Token.NUMBER (jsParseInt (c :: ds1)) :: ts)
    else if isAlpha c then
      let w := String.mk (c :: cs.takeWhile isAlphaNumeric)
      let rest := cs.dropWhile isAlphaNumeric
      let tk := if w = "fun" then Token.FUN
                else if w = "let" then Token.LET
                else Token.SYMBOL w
      (scanGo fuel rest).map (fun ts => tk :: ts)
    else
      .error ("Unexpected character (" ++ String.mk [c] ++ ")")

/-- Model: `scanner(source)`: scan the whole source, ending with one `EOF`. -/
def scanner (source : String) : Except String (List Token) :=
  scanGo (source.length + 1) source.toList

/-! ## Surface trees (`type Tree` in main.ts) -/

inductive Tree where
  | Num (data : Nat)
  | Var (data : String)
  | Lam (prop : String) (body : Tree)
  | App (func : Tree) (argm : Tree)
  | Let (name : String) (bind : Tree) (body : Tree)
deriving Repr, DecidableEq

/-! ## Parser (`parser` in main.ts)

The token cursor `current` is an explicit position `cur` into the fixed token
list; each helper returns the value produced together with the new position,
or the thrown error message. -/

/-- Model: `peek()`: the token at the cursor, or the thrown `"undefined token"`. -/
def peekT (toks : List Token) (cur : Nat) : Except String Token :=
  match toks.get? cur with
  | some t => .ok t
  | none => .error "undefined token"

/-- Model: `isAtEnd()`: `peek().tag == "EOF"`. -/
def isAtEndT (toks : List Token) (cur : Nat) : Except String Bool := do
  let t ← peekT toks cur
  pure (tagOf t = "EOF")

/-- Model: `advance()`: step the cursor unless at `EOF`. -/
def advanceT (toks : List Token) (cur : Nat) : Except String Nat := do
  let atEnd ← isAtEndT toks cur
  pure (if atEnd then cur else cur + 1)

/-- Model: `check(token)`: false at end, else compare tags. -/
def checkT (toks : List Token) (cur : Nat) (tag : String) : Except String Bool := do
  let atEnd ← isAtEndT toks cur
  if atEnd then pure false
  else do
    let t ← peekT toks cur
    pure (tagOf t = tag)

/-- Model: `matchToken(token)`: advance over a matching tag, reporting whether it
matched (every call site passes a single candidate token). -/
def matchT (toks : List Token) (cur : Nat) (tag : String) :
    Except String (Bool × Nat) := do
  let b ← checkT toks cur tag
  if b then do
    let c ← advanceT toks cur
    pure (true, c)
  else pure (false, cur)

/-- Model: `consumeToken(tag)` with no callback: the token object itself is returned,
which is always truthy, so only a tag mismatch throws. -/
def consumeTagT (toks : List Token) (cur : Nat) (tag : String) :
    Except String Nat := do
  let t ← peekT toks cur
  if tagOf t = tag then advanceT toks cur
  else .error ("Expected token with tag " ++ tag ++ ", but got " ++ tagOf t)

/-- Model: `parseNumber()` = `Num(consumeToken("NUMBER", t => t.value))`.  `consume`
re-checks the callback result with `if (!expectedValue)`, so the falsy value
`0` is rejected with `"Parser error with NUMBER"`. -/
def parseNumberT (toks : List Token) (cur : Nat) : Except String (Tree × Nat) := do
  let t ← peekT toks cur
  match t with
  | .NUMBER v =>
    if v = 0 then .error "Parser error with NUMBER"
    else do
      let c ← advanceT toks cur
      pure (Tree.Num v, c)
  | _ => .error "Expected token with tag NUMBER"

/-- Model: `consumeToken("SYMBOL", t => t.value)`; the falsy value `""` is rejected
by `consume`'s check. -/
def parseSymbolValT (toks : List Token) (cur : Nat) : Except String (String × Nat) := do
  let t ← peekT toks cur
  match t with
  | .SYMBOL v =>
    if v = "" then .error "Parser error with SYMBOL"
    else do
      let c ← advanceT toks cur
      pure (v, c)
  | _ => .error "Expected token with tag SYMBOL"

/-- Type of the `expression` entry point threaded to the non-recursive
helpers below. -/
abbrev PExpr := List Token → Nat → Except String (Tree × Nat)

/-- Model: `parseParens()`. -/
def parseParensT (pExpr : PExpr) (toks : List Token) (cur : Nat) :
    Except String (Tree × Nat) := do
  let c1 ← consumeTagT toks cur "LPAREN"
  let (value, c2) ← pExpr toks c1
  let c3 ← consumeTagT toks c2 "RPAREN"
  pure (value, c3)

/-- Model: `parseAtom()`: number, symbol or parenthesised expression; otherwise
`fail()` throws naming the unexpected token. -/
def parseAtomT (pExpr : PExpr) (toks : List Token) (cur : Nat) :
    Except String (Tree × Nat) := do
  let t ← peekT toks cur
  match t with
  | .NUMBER _ => parseNumberT toks cur
  | .SYMBOL _ => do
    let (v, c) ← parseSymbolValT toks cur
    pure (Tree.Var v, c)
  | .LPAREN => parseParensT pExpr toks cur
  | _ => .error "Unexpected token"

/-- Model: `parseLet()` (the leading `LET` was consumed by `expression`). -/
def parseLetT (pExpr : PExpr) (toks : List Token) (cur : Nat) :
    Except String (Tree × Nat) := do
  let (name, c1) ← parseSymbolValT toks cur
  let c2 ← consumeTagT toks c1 "EQUAL"
  let (bind, c3) ← pExpr toks c2
  let c4 ← consumeTagT toks c3 "SEMICOLON"
  let (body, c5) ← pExpr toks c4
  pure (Tree.Let name bind body, c5)

/-- Model: `parseFun()` (the leading `FUN` was consumed by `expression`). -/
def parseFunT (pExpr : PExpr) (toks : List Token) (cur : Nat) :
    Except String (Tree × Nat) := do
  let (param, c1) ← parseSymbolValT toks cur
  let c2 ← consumeTagT toks c1 "ARROW"
  let (body, c3) ← pExpr toks c2
  pure (Tree.Lam param body, c3)

/-- The `while (true)` argument loop of `parseCall`: parse an expression,
continue over a `COMMA`; otherwise the source runs `matchToken(RPAREN)` and
ignores its result before breaking, so a missing `RPAREN` is not reported. -/
def parseCallLoopT (pExpr : PExpr) :
    Nat → List Token → Nat → List Tree → Except String (List Tree × Nat)
  | 0, _, _, _ => .error "parser out of fuel"
  | f + 1, toks, cur, args => do
    let (e, c1) ← pExpr toks cur
    let args2 := args ++ [e]
    let (mc, c2) ← matchT toks c1 "COMMA"
    if mc then parseCallLoopT pExpr f toks c2 args2
    else do
      let (_, c3) ← matchT toks c2 "RPAREN"
      pure (args2, c3)

/-- Model: `parseCall(func)`: collect the arguments, then
`args.reduce((fn, arg) => App(fn, arg), func)`. -/
def parseCallT (pExpr : PExpr) (f : Nat) (toks : List Token) (cur : Nat)
    (func : Tree) : Except String (Tree × Nat) := do
  let (args, c1) ← parseCallLoopT pExpr f toks cur []
  pure (args.foldl (fun fn arg => Tree.App fn arg) func, c1)

/-- Model: `parseApp()`. -/
def parseAppT (pExpr : PExpr) (f : Nat) (toks : List Token) (cur : Nat) :
    Except String (Tree × Nat) := do
  let (func, c1) ← parseAtomT pExpr toks cur
  let (m, c2) ← matchT toks c1 "LPAREN"
  if m then parseCallT pExpr f toks c2 func
  else pure (func, c2)

/-- Model: `expression()`: `LET`-, `FUN`-headed forms, else an application.  The fuel
only bounds the recursion depth; every recursive entry consumes at least one
token first. -/
def expressionT : Nat → List Token → Nat → Except String (Tree × Nat)
  | 0, _, _ => .error "parser out of fuel"
  | f + 1, toks, cur => do
    let (m1, c1) ← matchT toks cur "LET"
    if m1 then parseLetT (expressionT f) toks c1
    else do
      let (m2, c2) ← matchT toks c1 "FUN"
      if m2 then parseFunT (expressionT f) toks c2
      else parseAppT (expressionT f) f toks c2

/-- Model: `parser(initial)`: parse one `expression` from position 0 and return its
tree.  Tokens after the parsed expression are not examined (the source has no
trailing-`EOF` check). -/
def parser (initial : List Token) : Except String Tree :=
  (expressionT ((initial.length + 1) * 4) initial 0).map (fun r => r.1)

/-! ## Free-variable analysis (`free` in main.ts)

The source returns a JavaScript `Set`, which preserves insertion order;
the model is a duplicate-free list in that order.  `new Set([...a, ...b])`
on two duplicate-free lists keeps `a` and appends the members of `b` not
already seen. -/

/-- Insertion-ordered union of two duplicate-free lists,
modelling `new Set([...a, ...b])`. -/
def setUnion (a b : List String) : List String :=
  a ++ b.filter (fun x => ! a.contains x)

/-- Model: `free(tree)` from main.ts.  Note the `Let` case of the source subtracts
the bound name from `free(bind)` and keeps all of `free(body)`. -/
def free : Tree → List String
  | .Var d => [d]
  | .Num _ => []
  | .Lam prop body => (free body).filter (fun x => x != prop)
  | .App func argm => setUnion (free func) (free argm)
  | .Let name bind body =>
    setUnion ((free bind).filter (fun x => x != name)) (free body)

/-! ## Post-conversion IR (`type Expr`, `type Topl` in main.ts) -/

inductive Expr where
  | Num (data : Nat)
  | Ref (data : String)
  | Idx (data : String) (idx : Nat)
  | App (func : String) (argm : Expr)
  | Cls (prop : String) (body : List Expr)
  | Let (name : String) (bind : Expr) (body : Expr)
deriving Repr

inductive Topl where
  | Decl (free : Nat) (name : String) (env : String) (prop : String) (body : Expr)
  | Main (expr : Expr)
deriving Repr

/-! ## Contexts (`lib/context.ts`)

Both variants back a context by one JavaScript `Map` whose methods mutate it
in place (`del` runs `this.map.delete(key)` and returns the same context).
The map is modelled as a duplicate-free association list; the in-place
mutation is modelled by threading the updated map wherever the source keeps
using the same object. -/

/-- Model: `map.get(key)` wrapped in `Option.of`. -/
def mapGet {α : Type} (m : List (String × α)) (k : String) : Option α :=
  (m.find? (fun p => p.1 == k)).map (fun p => p.2)

/-- Model: `map.set(key, val)`: update the existing entry in place, else append. -/
def mapSet {α : Type} (m : List (String × α)) (k : String) (v : α) :
    List (String × α) :=
  if (m.find? (fun p => p.1 == k)).isSome then
    m.map (fun p => if p.1 == k then (k, v) else p)
  else m ++ [(k, v)]

/-- Model: `map.delete(key)`: remove the entry with that key. -/
def mapDel {α : Type} (m : List (String × α)) (k : String) : List (String × α) :=
  m.eraseP (fun p => p.1 == k)

/-- A context's own map (the closure-based `makeContext` builds
`new Map(entries)`, inserting the entries in order with `set` semantics). -/
def buildMap {α : Type} (entries : List (String × α)) : List (String × α) :=
  entries.foldl (fun m kv => mapSet m kv.1 kv.2) []

/-- The substitution context used by the converter. -/
abbrev Ctx := List (String × Expr)

/-- Model: `makeContext(entries)` of the closure-based variant: a fresh map holding
the entries. -/
def makeContext (entries : List (String × Expr)) : Ctx := buildMap entries

/-! ## Substitution (`substitute` and its helpers in main.ts)

`substituteLet` substitutes the bind with the incoming map, then runs
`map.del(name)` — which deletes `name` from the one underlying `Map` and
returns the same object — and substitutes the body.  The deletion therefore
persists in the map after the `Let` is processed; the model threads the
mutated map through every recursive call and returns it. -/

mutual

/-- Model: `substitute(map, expr)` together with the map as mutated by the call. -/
def substitute : Ctx → Expr → Expr × Ctx
  | m, .Num d => (.Num d, m)
  | m, .Idx d i => (.Idx d i, m)
  | m, .Ref n =>
    ((match mapGet m n with
      | some v => v
      | none => .Ref n), m)
  | m, .Cls prop body =>
    let r := substList m body
    (.Cls prop r.1, r.2)
  | m, .App func argm =>
    let r := substitute m argm
    (.App func r.1, r.2)
  | m, .Let name bind body =>
    let rb := substitute m bind
    let m2 := mapDel rb.2 name
    let rd := substitute m2 body
    (.Let name rb.1 rd.1, rd.2)

/-- The `body.map((expr) => substitute(map, expr))` of `substituteCls`: the
elements are substituted left to right against the one shared map. -/
def substList : Ctx → List Expr → List Expr × Ctx
  | m, [] => ([], m)
  | m, e :: es =>
    let r1 := substitute m e
    let r2 := substList r1.2 es
    (r1.1 :: r2.1, r2.2)

end

/-! ## Fresh-name state (`lib/state.ts`)

`StateProto.next` runs `this.curr += 1; return pair(this.curr, this)`: it
advances the receiver's own `curr` cell and returns that same object.  The
model keeps the cell's value; because the returned state is the receiver,
two successive `next()` calls on one object are modelled by feeding the
returned state of the first call to the second. -/

structure State where
  curr : Nat
deriving Repr, DecidableEq

/-- Model: `next()`: increment the cell, return the new value and the (updated)
receiver. -/
def State.next (s : State) : Nat × State := (s.curr + 1, ⟨s.curr + 1⟩)

/-- Model: `makeState()`: a state whose cell reads 0. -/
def makeState : State := ⟨0⟩

/-- Two `next()` calls on the same state object: the first call mutates the
shared cell, so the second call reads the updated value. -/
def nextTwiceSameObject (s : State) : Nat × Nat :=
  let r1 := s.next
  let r2 := r1.2.next
  (r1.1, r2.1)

/-! ## Closure conversion (`convert` and its helpers in main.ts) -/

/-- Model: `Converted` = `Pair<Prog, Pair<Expr, State>>`. -/
abbrev Converted := List Topl × Expr × State

/-- Model: `convert(state, tree)`.  The source dispatches to one helper per variant;
each match arm below is that helper's body, inlined so the recursion is
structural on the tree:
* `Num`/`Var` (`convertNum`/`convertVar`): no hoists, residual unchanged;
* `Lam` (`convertLam`): two fresh integers for the env and closure names,
  free variables of the whole lambda in discovery order, substitution of each
  free variable by its environment slot in the converted body, one hoisted
  `Decl` appended after the body's own hoists, and a `Cls` residual reading
  the captured variables as plain references in the enclosing scope;
* `App` (`convertApp`): convert the function, draw one fresh integer for the
  temporary, convert the argument, bind the function value before the
  application; hoists concatenated function-side first;
* `Let` (`convertLet`): convert bind then body, threading the state. -/
def convert : State → Tree → Converted
  | state, .Num data => ([], Expr.Num data, state)
  | state, .Var data => ([], Expr.Ref data, state)
  | state0, .Lam prop body =>
    let p1 := state0.next
    let i := p1.1
    let p2 := p1.2.next
    let j := p2.1
    let fvs := free (Tree.Lam prop body)
    let env := "env" ++ toString i
    let cls := "cls" ++ toString j
    let sub := makeContext ((List.enum fvs).map (fun p => (p.2, Expr.Idx env p.1)))
    let r := convert p2.2 body
    let bd := (substitute sub r.2.1).1
    let code := Topl.Decl fvs.length cls env prop bd
    let refs := fvs.map (fun fv => Expr.Ref fv)
    (r.1 ++ [code], Expr.Cls cls refs, r.2.2)
  | state0, .App func argm =>
    let rf := convert state0 func
    let pn := rf.2.2.next
    let ra := convert pn.2 argm
    let value := Expr.Let ("_" ++ toString pn.1) rf.2.1
      (Expr.App ("_" ++ toString pn.1) ra.2.1)
    (rf.1 ++ ra.1, value, ra.2.2)
  | state0, .Let name bind body =>
    let rb := convert state0 bind
    let rd := convert rb.2.2 body
    (rb.1 ++ rd.1, Expr.Let name rb.2.1 rd.2.1, rd.2.2)

/-- Model: `convertCls(tree)`: run the converter from a fresh state and append the
`Main` entry. -/
def convertCls (tree : Tree) : List Topl :=
  let r := convert makeState tree
  r.1 ++ [Topl.Main r.2.1]

/-! ## Code generation (`codegen*` in main.ts and its duplicated sibling)

`Build` is the continuation from a generated value expression to a finished
code fragment.  The two copies of the compiler differ in exactly one place:
`codegenCls` in `main.ts` renders the captured expressions with
`codegenExpr(build, expr)` — the *outer* continuation — while the sibling
file renders them with `codegenExpr(sameReturn, expr)`, the identity. -/

abbrev Code := String

abbrev Build := String → Code

/-- Model: `bindReturn(bind)`: continuation assigning into a local. -/
def bindReturn (bind : String) : Build := fun body => bind ++ " = " ++ body ++ ";"

/-- Model: `exprReturn`: the "return" continuation. -/
def exprReturn (expr : String) : Code := "return " ++ expr ++ ";"

/-- Model: `callReturn`: the `Main` continuation printing the final value. -/
def callReturn (expr : String) : Code := "print_val(" ++ expr ++ ");"

/-- Model: `sameReturn`: the identity continuation. -/
def sameReturn (expr : String) : Code := expr

mutual

/-- Model: `codegenExpr(build, expr)` of `main.ts`.  Each match arm is the body of
the per-variant helper it dispatches to (`codegenNum`, `codegenRef`,
`codegenIdx`, `codegenApp`, `codegenCls`, `codegenLet`), inlined so the
recursion is structural.  Note the `Cls` arm of this copy maps the *outer*
`build` over the captured expressions. -/
def codegenExpr (build : Build) : Expr → Code
  | .Num data => build ("build_int(" ++ toString data ++ ")")
  | .Ref data => build data
  | .Idx data idx => build (data ++ "[" ++ toString idx ++ "]")
  | .App func argm =>
    let code := codegenExpr sameReturn argm
    build (func ++ "->c.code(" ++ func ++ "->c.env, " ++ code ++ ")")
  | .Cls prop body =>
    let code := codegenList build body
    let cont := String.intercalate ", " code
    build ("build_cls(" ++ prop ++ ", (struct val *[" ++ toString body.length
      ++ "])\x7b " ++ cont ++ " \x7d)")
  | .Let name bind body =>
    let code := codegenExpr (bindReturn name) bind
    let cont := codegenExpr build body
    String.intercalate "\n" ["struct val *" ++ name ++ ";", code, cont]

/-- The `body.map((expr) => codegenExpr(build, expr))` of `main.ts`'s
`codegenCls`. -/
def codegenList (build : Build) : List Expr → List Code
  | [] => []
  | e :: es => codegenExpr build e :: codegenList build es

end

mutual

/-- Model: `codegenExpr` of the duplicated sibling file, identical to `main.ts`
except that its `codegenCls` renders each captured expression under
`sameReturn`, the identity continuation. -/
def codegenExprP1 (build : Build) : Expr → Code
  | .Num data => build ("build_int(" ++ toString data ++ ")")
  | .Ref data => build data
  | .Idx data idx => build (data ++ "[" ++ toString idx ++ "]")
  | .App func argm =>
    let code := codegenExprP1 sameReturn argm
    build (func ++ "->c.code(" ++ func ++ "->c.env, " ++ code ++ ")")
  | .Cls prop body =>
    let code := codegenListP1 sameReturn body
    let cont := String.intercalate ", " code
    build ("build_cls(" ++ prop ++ ", (struct val *[" ++ toString body.length
      ++ "])\x7b " ++ cont ++ " \x7d)")
  | .Let name bind body =>
    let code := codegenExprP1 (bindReturn name) bind
    let cont := codegenExprP1 build body
    String.intercalate "\n" ["struct val *" ++ name ++ ";", code, cont]

/-- The `body.map((expr) => codegenExpr(sameReturn, expr))` of the sibling
file's `codegenCls`. -/
def codegenListP1 (build : Build) : List Expr → List Code
  | [] => []
  | e :: es => codegenExprP1 build e :: codegenListP1 build es

end

/-! ## Runtime values and `print_val` (`output/driver.c`)

The runtime value is a tagged union; reading `c.integer` on a `CLOSURE_T`
value reinterprets the stored code pointer's bytes, modelled as the code
field's address value.  The `switch` in `print_val` has no `break`
statements: the `CLOSURE_T` case prints the placeholder and then falls
through into the `INT_T` case's `printf("%d\n", ...)`; the `INT_T` case
prints and falls into `default: return`. -/

inductive CVal where
  | closure (code : Nat) (env : Nat)
  | integer (n : Int)
deriving Repr, DecidableEq

/-- The `c.integer` union member as read by `print_val`, including the
reinterpreting read on a closure. -/
def unionInteger : CVal → Int
  | .closure code _ => Int.ofNat code
  | .integer n => n

/-- One line of standard output. -/
inductive OutLine where
  | text (s : String)
  | intline (n : Int)
deriving Repr, DecidableEq

/-- Model: `print_val(val)`: the lines printed, with the switch fallthrough of the
source reproduced. -/
def print_val : CVal → List OutLine
  | .closure code env =>
    [.text "<#closure>", .intline (unionInteger (.closure code env))]
  | .integer n => [.intline n]

/-! ## The two `makeContext` variants as heap models (`lib/context.ts`)

The prototype-based variant stores `map: new Map()` once on the shared
`contextProto` object; `Object.create(contextProto)` gives every context that
single map, so `set`/`del`/`get` on any context read and write the same heap
cell.  The closure-based variant allocates `new Map(entries)` per call.  The
first model's heap is the one shared map; the second model's heap is the list
of per-context maps, with a context denoted by its index. -/

/-- Prototype-based `makeContext(entries)`: `Object.create(contextProto)`
followed by `context.set(key, value)` for each entry — every `set` lands in
the shared prototype map, whose prior contents survive. -/
def makeContextProto {α : Type} (entries : List (String × α))
    (shared : List (String × α)) : List (String × α) :=
  entries.foldl (fun m kv => mapSet m kv.1 kv.2) shared

/-- Model: `get` on any prototype-based context: a lookup in the shared map. -/
def protoGet {α : Type} (shared : List (String × α)) (k : String) : Option α :=
  mapGet shared k

/-- The heap of closure-based contexts: one map per created context. -/
abbrev CtxStore (α : Type) := List (List (String × α))

/-- Closure-based `makeContext(entries)`: allocate a fresh map holding the
entries and hand back its reference. -/
def makeContextAt {α : Type} (entries : List (String × α)) (store : CtxStore α) :
    Nat × CtxStore α :=
  (store.length, store ++ [buildMap entries])

/-- Model: `get` through a context reference. -/
def storeGet {α : Type} (store : CtxStore α) (r : Nat) (k : String) : Option α :=
  match store.get? r with
  | some m => mapGet m k
  | none => none

/-- Model: `set` through a context reference (mutates that context's own map). -/
def storeSet {α : Type} (store : CtxStore α) (r : Nat) (k : String) (v : α) :
    CtxStore α :=
  store.set r (mapSet ((store.get? r).getD []) k v)

/-- Model: `del` through a context reference (mutates that context's own map). -/
def storeDel {α : Type} (store : CtxStore α) (r : Nat) (k : String) : CtxStore α :=
  store.set r (mapDel ((store.get? r).getD []) k)

/-! ## Claim-level predicates

These formalise conditions stated by the specification about the IR; they are
checkers written from the spec's words, to be evaluated against the output of
the source-derived functions above. -/

mutual

/-- Specification condition on a `Decl` body: every `Ref` names either the
declaration's argument parameter or a name bound by a `Let` enclosing the
occurrence (`allowed` starts as the argument parameter alone). -/
def refsInScope (allowed : List String) : Expr → Bool
  | .Num _ => true
  | .Idx _ _ => true
  | .Ref n => allowed.contains n
  | .App _ argm => refsInScope allowed argm
  | .Cls _ body => refsInScopeList allowed body
  | .Let n bind body =>
    refsInScope allowed bind && refsInScope (n :: allowed) body

/-- Model: `refsInScope` over every element of a captured list. -/
def refsInScopeList (allowed : List String) : List Expr → Bool
  | [] => true
  | e :: es => refsInScope allowed e && refsInScopeList allowed es

end

mutual

/-- True when the expression contains no `Let` node (so `substitute` never
reaches a shadowing deletion inside it). -/
def noLet : Expr → Bool
  | .Num _ => true
  | .Ref _ => true
  | .Idx _ _ => true
  | .App _ argm => noLet argm
  | .Cls _ body => noLetList body
  | .Let _ _ _ => false

/-- Model: `noLet` over every element of a captured list. -/
def noLetList : List Expr → Bool
  | [] => true
  | e :: es => noLet e && noLetList es

end

mutual

/-- Modelled from the spec's words for `substitute`: a *pure* structural copy
replacing each non-shadowed `Ref(n)` with `map[n]` when present, with the
shadowing removal of a `Let`-bound name confined to that `Let`'s body. -/
def pureSubst (m : Ctx) : Expr → Expr
  | .Num d => .Num d
  | .Idx d i => .Idx d i
  | .Ref n =>
    (match mapGet m n with
     | some v => v
     | none => .Ref n)
  | .App func argm => .App func (pureSubst m argm)
  | .Cls prop body => .Cls prop (pureSubstList m body)
  | .Let name bind body => .Let name (pureSubst m bind) (pureSubst (mapDel m name) body)

/-- Model: `pureSubst` over every element of a captured list. -/
def pureSubstList (m : Ctx) : List Expr → List Expr
  | [] => []
  | e :: es => pureSubst m e :: pureSubstList m es

end

/-! ## Helper lemmas -/

/-- On Let-free expressions the threaded `substitute` agrees with the pure
structural copy and returns the map unchanged. -/
theorem substitute_noLet (m : Ctx) (e : Expr) (h : noLet e = true) :
    substitute m e = (pureSubst m e, m) := by
  revert h
  refine substitute.induct
    (fun m e => noLet e = true → substitute m e = (pureSubst m e, m))
    (fun m es => noLetList es = true → substList m es = (pureSubstList m es, m))
    ?_ ?_ ?_ ?_ ?_ ?_ ?_ ?_ m e
  · intro m d _
    simp [substitute, pureSubst]
  · intro m d i _
    simp [substitute, pureSubst]
  · intro m n _
    simp [substitute, pureSubst]
  · intro m p body ih h
    simp only [noLet] at h
    have hl := ih h
    simp only [substitute, pureSubst, hl]
  · intro m f a ih h
    simp only [noLet] at h
    have ha := ih h
    simp only [substitute, pureSubst, ha]
  · intro m n b bd _ _ _ _ h
    simp [noLet] at h
  · intro m _
    simp [substList, pureSubstList]
  · intro m e es r1 ih1 ih2 h
    simp only [noLetList, Bool.and_eq_true] at h
    have h1 := ih1 h.1
    have hr : r1 = substitute m e := rfl
    have h2 : substList m es = (pureSubstList m es, m) := by
      have h3 := ih2 h.2
      rw [hr, h1] at h3
      exact h3
    simp only [substList, pureSubstList, h1, h2]

/-- Fact: `takeWhile` passes over a prefix all of whose elements satisfy the
predicate. -/
theorem takeWhile_append_all {p : Char → Bool} (l r : List Char)
    (h : ∀ c ∈ l, p c = true) :
    (l ++ r).takeWhile p = l ++ r.takeWhile p := by
  induction l with
  | nil => simp
  | cons c cs ih =>
    rw [List.cons_append, List.takeWhile_cons, h c (by simp),
      ih (fun c hc => h c (by simp [hc]))]
    simp

/-- Fact: `dropWhile` drops a prefix all of whose elements satisfy the predicate. -/
theorem dropWhile_append_all {p : Char → Bool} (l r : List Char)
    (h : ∀ c ∈ l, p c = true) :
    (l ++ r).dropWhile p = r.dropWhile p := by
  induction l with
  | nil => simp
  | cons c cs ih =>
    rw [List.cons_append, List.dropWhile_cons, h c (by simp)]
    exact ih (fun c hc => h c (by simp [hc]))

/-- Fact: `takeWhile` keeps a list all of whose elements satisfy the predicate. -/
theorem takeWhile_all {p : Char → Bool} (l : List Char)
    (h : ∀ c ∈ l, p c = true) : l.takeWhile p = l := by
  have h2 := takeWhile_append_all l [] h
  simpa using h2

/-- Fact: `dropWhile` exhausts a list all of whose elements satisfy the
predicate. -/
theorem dropWhile_all {p : Char → Bool} (l : List Char)
    (h : ∀ c ∈ l, p c = true) : l.dropWhile p = [] := by
  have h2 := dropWhile_append_all l [] h
  simpa using h2

/-- Unfolding of `scanner` over an explicit character list. -/
theorem scanner_mk (l : List Char) :
    scanner (String.mk l) = scanGo (l.length + 1) l := by
  simp only [scanner, String.length_mk]
  rfl

/-- A digit is none of the scanner's whitespace characters. -/
theorem isDigit_not_ws (c : Char) (h : isDigit c = true) :
    ¬(c = ' ' ∨ c = '\r' ∨ c = '\n' ∨ c = '\t') := by
  rintro (rfl | rfl | rfl | rfl) <;> exact absurd h (by decide)

/-- A digit differs from any character that is not a digit. -/
theorem ne_of_isDigit (c : Char) (h : isDigit c = true) (c' : Char)
    (hc' : isDigit c' = false) : c ≠ c' := by
  intro he
  rw [he, hc'] at h
  cases h

/-- Fact: `find?` through `mapSet`'s in-place update: the updated entry is found
wherever the original key was found. -/
theorem find?_mapSet {α : Type} (m : List (String × α)) (k : String) (v : α) :
    (m.map (fun p => if p.1 == k then (k, v) else p)).find? (fun p => p.1 == k)
      = (m.find? (fun p => p.1 == k)).map (fun _ => (k, v)) := by
  induction m with
  | nil => rfl
  | cons p ps ih =>
    by_cases hp : (p.1 == k) = true
    · simp only [List.map_cons, if_pos hp]
      simp [List.find?_cons, hp]
    · simp only [List.map_cons, if_neg hp]
      rw [@List.find?_cons_of_neg (String × α) (fun q => q.1 == k) p _ hp,
        @List.find?_cons_of_neg (String × α) (fun q => q.1 == k) p _ hp]
      exact ih

/-- Fact: `mapGet` after `mapSet` at the same key yields the new value. -/
theorem mapGet_mapSet_self {α : Type} (m : List (String × α)) (k : String) (v : α) :
    mapGet (mapSet m k v) k = some v := by
  rw [mapSet]
  by_cases hs : (m.find? (fun p => p.1 == k)).isSome
  · rw [if_pos hs, mapGet, find?_mapSet]
    obtain ⟨p, hp⟩ := Option.isSome_iff_exists.mp hs
    rw [hp]
    rfl
  · rw [if_neg hs, mapGet, List.find?_append,
      Option.not_isSome_iff_eq_none.mp hs]
    simp

/-! ## Claims -/

/-- C1: the conversion-soundness invariant fails on the code.  For the
surface tree of `fun q => let a = (let x = 1; 2); x` (whose lambda has the
single free variable `x`), the emitted declaration's body still contains
`Ref "x"`, a name that is neither the argument parameter `q` nor bound by an
enclosing `Let` at the occurrence, instead of the required `Idx "env1" 0`:
`substituteLet` runs `map.del` on the shared map while processing the inner
`Let x`, so the mapping for `x` is gone when the outer `Let`'s body is
reached. -/
theorem convertCls_scope_violation :
    convertCls (Tree.Lam "q"
        (Tree.Let "a" (Tree.Let "x" (Tree.Num 1) (Tree.Num 2)) (Tree.Var "x")))
      = [Topl.Decl 1 "cls2" "env1" "q"
          (Expr.Let "a" (Expr.Let "x" (Expr.Num 1) (Expr.Num 2)) (Expr.Ref "x")),
         Topl.Main (Expr.Cls "cls2" [Expr.Ref "x"])]
    ∧ refsInScope ["q"]
        (Expr.Let "a" (Expr.Let "x" (Expr.Num 1) (Expr.Num 2)) (Expr.Ref "x"))
      = false := by
  exact ⟨rfl, rfl⟩

/-- C2 counterexample: the fresh-name state is not an immutable value.
`StateProto.next` runs `this.curr += 1` and returns `this`, so two `next()`
calls on the same state object yield 1 and then 2 — not the same integer —
and the object's cell after a call differs from its value before. -/
theorem state_next_mutates :
    (nextTwiceSameObject makeState).1 ≠ (nextTwiceSameObject makeState).2
    ∧ nextTwiceSameObject makeState = (1, 2)
    ∧ (State.next makeState).2 ≠ makeState := by
  decide

/-- C2 (amended): the state is a mutable counter cell; `next()` increments
the cell in place and returns the new value paired with the same (updated)
object, so successive draws on one object produce the strictly increasing
integers `curr + 1`, `curr + 2`, never the same integer twice.  Because every
converter call site threads the returned state linearly, the drawn values
agree with an immutably threaded counter. -/
theorem state_next_amended (s : State) :
    s.next = (s.curr + 1, ⟨s.curr + 1⟩)
    ∧ nextTwiceSameObject s = (s.curr + 1, s.curr + 2)
    ∧ s.curr + 1 ≠ s.curr + 2 := by
  refine ⟨rfl, rfl, by omega⟩

/-- C3 counterexample: the shadowing removal is not confined to the `Let`'s
body.  Substituting the captured list `[let x = 1 in 2, x]` under the map
`x ↦ Idx env1 0` leaves the second, non-shadowed element as `Ref "x"` —
`map.del("x")` performed while substituting the first element's `Let` body
mutated the shared map — whereas the claim requires it to become
`Idx "env1" 0`. -/
theorem substitute_del_persists :
    (substitute (makeContext [("x", Expr.Idx "env1" 0)])
        (Expr.Cls "c" [Expr.Let "x" (Expr.Num 1) (Expr.Num 2), Expr.Ref "x"])).1
      = Expr.Cls "c" [Expr.Let "x" (Expr.Num 1) (Expr.Num 2), Expr.Ref "x"]
    ∧ Expr.Cls "c" [Expr.Let "x" (Expr.Num 1) (Expr.Num 2), Expr.Ref "x"]
      ≠ Expr.Cls "c" [Expr.Let "x" (Expr.Num 1) (Expr.Num 2), Expr.Idx "env1" 0] := by
  refine ⟨rfl, ?_⟩
  simp

/-- C3 (amended): `substitute` is a structural copy threading one mutable
map.  On `Let`-free expressions it is exactly the pure copy replacing each
`Ref(n)` with `map[n]` and it leaves the map unchanged; at a `Let` the bind
is substituted under the incoming map, then the bound name is deleted from
the map, the body is substituted under the deleted map, and that deleted map
is what the call returns — so the deletion persists for sibling
subexpressions processed later and for later uses of the same map. -/
theorem substitute_amended (m : Ctx) (e : Expr) (n : String) (b bd : Expr)
    (h : noLet e = true) :
    substitute m e = (pureSubst m e, m)
    ∧ (substitute m (Expr.Let n b bd)).1
      = Expr.Let n (substitute m b).1
          (substitute (mapDel (substitute m b).2 n) bd).1
    ∧ (substitute m (Expr.Let n b bd)).2
      = (substitute (mapDel (substitute m b).2 n) bd).2 :=
  ⟨substitute_noLet m e h, rfl, rfl⟩

/-- C3 witness: the amended theorem applied at the map `x ↦ Idx e 0` and the
`Let`-free expression `f x`. -/
theorem substitute_amended_witness :
    noLet (Expr.App "f" (Expr.Ref "x")) = true
    ∧ (substitute [("x", Expr.Idx "e" 0)] (Expr.App "f" (Expr.Ref "x"))
        = (pureSubst [("x", Expr.Idx "e" 0)] (Expr.App "f" (Expr.Ref "x")),
           [("x", Expr.Idx "e" 0)])
      ∧ (substitute [("x", Expr.Idx "e" 0)]
            (Expr.Let "y" (Expr.Num 1) (Expr.Num 2))).1
        = Expr.Let "y" (substitute [("x", Expr.Idx "e" 0)] (Expr.Num 1)).1
            (substitute
              (mapDel (substitute [("x", Expr.Idx "e" 0)] (Expr.Num 1)).2 "y")
              (Expr.Num 2)).1
      ∧ (substitute [("x", Expr.Idx "e" 0)]
            (Expr.Let "y" (Expr.Num 1) (Expr.Num 2))).2
        = (substitute
            (mapDel (substitute [("x", Expr.Idx "e" 0)] (Expr.Num 1)).2 "y")
            (Expr.Num 2)).2) :=
  ⟨rfl, substitute_amended [("x", Expr.Idx "e" 0)] (Expr.App "f" (Expr.Ref "x"))
    "y" (Expr.Num 1) (Expr.Num 2) rfl⟩

/-- C4: the parser does not fail on an application whose closing `RPAREN` is
missing.  On the token sequence of `f(a` — a grammar violation — `parseCall`
runs `matchToken(RPAREN)`, ignores its `false` result and breaks, so the
parse succeeds with the tree of `f(a)` instead of raising a `ParseError`. -/
theorem parser_accepts_missing_rparen :
    parser [Token.SYMBOL "f", Token.LPAREN, Token.SYMBOL "a", Token.EOF]
      = .ok (Tree.App (Tree.Var "f") (Tree.Var "a")) := by
  rfl

/-- C5: `free` implements the opposite scoping for `Let`.  The source
computes `(free(bind) \ {n}) ∪ free(body)`: a free occurrence of the bound
name in the bind is removed (the claim requires it kept), and a bound
occurrence in the body is kept (the claim requires it removed), as both
evaluations show. -/
theorem free_let_scoping_swapped :
    free (Tree.Let "x" (Tree.Var "x") (Tree.Num 0)) = []
    ∧ free (Tree.Let "x" (Tree.Num 5) (Tree.Var "x")) = ["x"]
    ∧ "x" ∉ free (Tree.Let "x" (Tree.Var "x") (Tree.Num 0))
    ∧ "x" ∈ free (Tree.Let "x" (Tree.Num 5) (Tree.Var "x")) := by
  refine ⟨rfl, rfl, by decide, by decide⟩

/-- C6: `convertApp` converts the function first, draws exactly one fresh
integer `k` from the state that conversion returns, converts the argument
with the advanced state, produces the residual
`Let(_k, funcExpr, App(_k, argmExpr))`, and concatenates the hoisted
declarations with the function's strictly first. -/
theorem convertApp_order (s : State) (f a : Tree) :
    (convert s (Tree.App f a)).1
      = (convert s f).1 ++ (convert ((convert s f).2.2.next).2 a).1
    ∧ (convert s (Tree.App f a)).2.1
      = Expr.Let ("_" ++ toString ((convert s f).2.2.next).1)
          (convert s f).2.1
          (Expr.App ("_" ++ toString ((convert s f).2.2.next).1)
            (convert ((convert s f).2.2.next).2 a).2.1)
    ∧ (convert s (Tree.App f a)).2.2
      = (convert ((convert s f).2.2.next).2 a).2.2 :=
  ⟨rfl, rfl, rfl⟩

/-- C7: in `main.ts`, `codegenCls` renders each captured expression under
the *outer* continuation, not the identity: with the `return` continuation
and the captured list `[Ref x]`, the element is rendered as `return x;`
inside the environment-array literal, and the continuation is thus applied
to the elements as well as to the construct-closure expression.  The
duplicated sibling file's `codegenCls` uses the identity continuation and
produces the output the claim describes. -/
theorem codegenCls_outer_continuation :
    codegenExpr exprReturn (Expr.Cls "cls2" [Expr.Ref "x"])
      = "return build_cls(cls2, (struct val *[1])\x7b return x; \x7d);"
    ∧ codegenExprP1 exprReturn (Expr.Cls "cls2" [Expr.Ref "x"])
      = "return build_cls(cls2, (struct val *[1])\x7b x \x7d);" :=
  ⟨rfl, rfl⟩

/-- C8: `print_val` renders an `INTEGER` as its decimal value and newline as
claimed, but the `CLOSURE` case of the `switch` has no `break`: after the
placeholder line it falls through into the `INT_T` branch and also prints an
integer line (the reinterpreted union contents), so a closure does not print
the placeholder alone. -/
theorem print_val_fallthrough :
    print_val (CVal.closure 7 0)
      = [OutLine.text "<#closure>", OutLine.intline 7]
    ∧ (print_val (CVal.closure 7 0)).length ≠ 1
    ∧ print_val (CVal.integer 5) = [OutLine.intline 5] := by
  decide

/-- C9: a numeric literal made of a digit run, and optionally a single `.`
followed by a further digit run, is consumed whole by the scanner and
produces exactly one `NUMBER` token carrying the decimal value of the
integer part alone — the fractional digits are consumed but dropped by
`parseInt`. -/
theorem scanner_truncates_fraction (ds1 ds2 : List Char)
    (h1 : ds1 ≠ []) (h2 : ∀ c ∈ ds1, isDigit c = true)
    (h3 : ds2 ≠ []) (h4 : ∀ c ∈ ds2, isDigit c = true) :
    scanner (String.mk (ds1 ++ '.' :: ds2))
      = .ok [Token.NUMBER (digitsVal ds1), Token.EOF]
    ∧ scanner (String.mk ds1) = .ok [Token.NUMBER (digitsVal ds1), Token.EOF] := by
  obtain ⟨d, t1, rfl⟩ : ∃ d t1, ds1 = d :: t1 := by
    cases ds1 with
    | nil => exact absurd rfl h1
    | cons d t1 => exact ⟨d, t1, rfl⟩
  obtain ⟨e, t2, rfl⟩ : ∃ e t2, ds2 = e :: t2 := by
    cases ds2 with
    | nil => exact absurd rfl h3
    | cons e t2 => exact ⟨e, t2, rfl⟩
  have hd : isDigit d = true := h2 d (List.mem_cons_self d t1)
  have ht1 : ∀ c ∈ t1, isDigit c = true := fun c hc => h2 c (List.mem_cons_of_mem d hc)
  have he : isDigit e = true := h4 e (List.mem_cons_self e t2)
  have ht2 : ∀ c ∈ t2, isDigit c = true := fun c hc => h4 c (List.mem_cons_of_mem e hc)
  have hdot : isDigit '.' = false := by decide
  constructor
  · rw [scanner_mk, List.cons_append]
    simp only [scanGo]
    rw [if_neg (isDigit_not_ws d hd),
      if_neg (ne_of_isDigit d hd '(' (by decide)),
      if_neg (ne_of_isDigit d hd ')' (by decide)),
      if_neg (ne_of_isDigit d hd '=' (by decide)),
      if_neg (ne_of_isDigit d hd ';' (by decide)),
      if_neg (ne_of_isDigit d hd ',' (by decide)),
      if_pos hd]
    simp only [takeWhile_append_all t1 ('.' :: e :: t2) ht1,
      dropWhile_append_all t1 ('.' :: e :: t2) ht1,
      List.takeWhile_cons, List.dropWhile_cons, hdot, List.headD_cons,
      Bool.false_eq_true, if_false, he, if_true,
      takeWhile_all t2 ht2, dropWhile_all t2 ht2]
    simp only [List.append_nil]
    have hlex : jsParseInt ((d :: t1) ++ '.' :: e :: t2) = digitsVal (d :: t1) := by
      rw [jsParseInt, takeWhile_append_all (d :: t1) _ h2, List.takeWhile_cons, hdot]
      simp
    rw [hlex]
    have hlen : (d :: (t1 ++ '.' :: e :: t2)).length = t1.length + t2.length + 2 + 1 := by
      simp
      omega
    rw [hlen]
    simp only [scanGo]
    rfl
  · rw [scanner_mk]
    simp only [scanGo]
    rw [if_neg (isDigit_not_ws d hd),
      if_neg (ne_of_isDigit d hd '(' (by decide)),
      if_neg (ne_of_isDigit d hd ')' (by decide)),
      if_neg (ne_of_isDigit d hd '=' (by decide)),
      if_neg (ne_of_isDigit d hd ';' (by decide)),
      if_neg (ne_of_isDigit d hd ',' (by decide)),
      if_pos hd]
    simp only [takeWhile_all t1 ht1, dropWhile_all t1 ht1]
    have hlex2 : jsParseInt (d :: t1) = digitsVal (d :: t1) := by
      rw [jsParseInt, List.takeWhile_cons, if_pos hd, takeWhile_all t1 ht1]
    rw [hlex2]
    have hlen2 : (d :: t1).length = t1.length + 1 := by simp
    rw [hlen2]
    simp only [scanGo]
    rfl

/-- C9 witness: the truncation theorem applied to the literal `3.75`, which
lexes to the single token `NUMBER(3)` followed by `EOF`. -/
theorem scanner_truncates_fraction_witness :
    (['3'] ≠ ([] : List Char) ∧ (∀ c ∈ ['3'], isDigit c = true)
      ∧ ['7', '5'] ≠ ([] : List Char) ∧ (∀ c ∈ ['7', '5'], isDigit c = true))
    ∧ (scanner (String.mk (['3'] ++ '.' :: ['7', '5']))
        = .ok [Token.NUMBER (digitsVal ['3']), Token.EOF]
      ∧ scanner (String.mk ['3'])
        = .ok [Token.NUMBER (digitsVal ['3']), Token.EOF])
    ∧ scanner "3.75" = .ok [Token.NUMBER 3, Token.EOF] :=
  ⟨⟨by decide, by decide, by decide, by decide⟩,
   scanner_truncates_fraction ['3'] ['7', '5']
     (by decide) (by decide) (by decide) (by decide),
   rfl⟩

/-- C10 counterexample: contexts built by the prototype-based `makeContext`
are not independent.  Every context shares `contextProto`'s single map, so a
context created from the empty entry list still answers `get("x")` with the
binding installed by a context created earlier — the claim requires `None`
for a key absent from the new context's own entries. -/
theorem makeContextProto_shared :
    protoGet (makeContextProto ([] : List (String × Nat))
        (makeContextProto [("x", 1)] [])) "x" = some 1
    ∧ some 1 ≠ (none : Option Nat) := by
  decide

/-- C10 (amended): the closure-based `makeContext` creates independent
contexts — `get` on a freshly created context reads exactly its own entries
(latest binding winning for a duplicated key) no matter what the store
already holds, and `set`/`del` through one context reference never change
`get` through another — while the prototype-based `makeContext` shares one
prototype map among all contexts, so a context created with no entries still
sees every binding already in the shared map. -/
theorem makeContext_independence_amended {α : Type} (st : CtxStore α)
    (entries es : List (String × α)) (k k2 : String) (v w : α) (i j : Nat)
    (hij : i ≠ j) :
    storeGet (makeContextAt entries st).2 (makeContextAt entries st).1 k
      = mapGet (buildMap entries) k
    ∧ storeGet (storeSet st i k2 w) j k = storeGet st j k
    ∧ storeGet (storeDel st i k2) j k = storeGet st j k
    ∧ mapGet (buildMap (es ++ [(k, v)])) k = some v
    ∧ protoGet (makeContextProto ([] : List (String × α)) (buildMap es)) k
      = mapGet (buildMap es) k := by
  refine ⟨?_, ?_, ?_, ?_, rfl⟩
  · rw [makeContextAt, storeGet]
    rw [List.get?_concat_length]
  · rw [storeGet, storeSet, List.get?_set_ne _ _ hij, storeGet]
  · rw [storeGet, storeDel, List.get?_set_ne _ _ hij, storeGet]
  · rw [buildMap, List.foldl_append]
    exact mapGet_mapSet_self _ k v

/-- C10 witness: the amended theorem applied to a two-context store. -/
theorem makeContext_independence_amended_witness :
    (0 : Nat) ≠ 1
    ∧ (storeGet (makeContextAt [("x", 5)] [[("a", 1)], []]).2
          (makeContextAt [("x", 5)] [[("a", 1)], []]).1 "x"
        = mapGet (buildMap [("x", 5)]) "x"
      ∧ storeGet (storeSet [[("a", 1)], []] 0 "a" 3) 1 "x"
        = storeGet ([[("a", 1)], []] : CtxStore Nat) 1 "x"
      ∧ storeGet (storeDel [[("a", 1)], []] 0 "a") 1 "x"
        = storeGet ([[("a", 1)], []] : CtxStore Nat) 1 "x"
      ∧ mapGet (buildMap ([("x", 7)] ++ [("x", 9)])) "x" = some 9
      ∧ protoGet (makeContextProto ([] : List (String × Nat)) (buildMap [("x", 7)])) "x"
        = mapGet (buildMap [("x", 7)]) "x") :=
  ⟨by decide,
   makeContext_independence_amended [[("a", 1)], []] [("x", 5)] [("x", 7)]
     "x" "a" 9 3 0 1 (by decide)⟩

end WeirdC
